import Mathlib

/-!
# Verification of the DJ AST and query-build layer

Shallow embedding of `src/dj/sql/parsing/ast.py` and
`src/dj/construction/build.py` from the `dj` repository, together with
proofs settling the frozen claims about them.

Modelling conventions:
* Python dataclass AST nodes become the inductive `PNode`.  Each
  constructor lists the node's dataclass fields in declaration order
  (inherited dataclass fields first), including the "obfuscated"
  leading-underscore fields (`_namespace`, `_table`, `_columns`), since
  those are dataclass fields read through properties.  The `_parents`
  annotation on the abstract `Node` base class is NOT a dataclass field
  (the base class is not a dataclass), so `dataclasses.fields` never
  yields it; parent sets therefore live outside the tree value and are
  modelled as an explicit edge list keyed by tree positions.
* Python `int`/`float`/`str`/`bool` literal payloads become `PyVal`;
  floats are modelled as rationals (the code only parses and stores
  them, it performs no floating-point arithmetic).
* Mutation becomes explicit state passing: methods that mutate a node
  return the updated value, and fallible code returns `Except`.
-/

/-- `UnaryOpKind` from ast.py. -/
inductive UnaryOpKind where
  | plus
  | minus
  | not
deriving DecidableEq, Repr

/-- `BinaryOpKind` from ast.py. -/
inductive BinaryOpKind where
  | and
  | or
  | is
  | eq
  | notEq
  | gt
  | lt
  | gtEq
  | ltEq
  | bitwiseOr
  | bitwiseAnd
  | bitwiseXor
  | multiply
  | divide
  | plus
  | minus
  | modulo
deriving DecidableEq, Repr

/-- `JoinKind` from ast.py. -/
inductive JoinKind where
  | inner
  | leftOuter
  | rightOuter
  | fullOuter
  | crossJoin
deriving DecidableEq, Repr

/-- A Python primitive value as stored in `Value.value`
(`Union[str, bool, float, int]`); floats are modelled as rationals. -/
inductive PyVal where
  | pInt (n : Int)
  | pFloat (q : Rat)
  | pStr (s : String)
  | pBool (b : Bool)
deriving DecidableEq, Repr

/-- The concrete DJ AST node variants of ast.py as one inductive type
(Python is dynamically typed, so every node-valued field is `PNode`).
Field order matches dataclass field order, inherited fields first.
`Namespace` and `From` are Lean keywords, hence `nspace` and `fromN`;
`Case` clashes with tactic syntax, hence `caseE`. The extra trailing
`api` field on `column` is modelled from the spec: the API-added flag
set by `set_api_column` (referenced by build.py but absent from the
ast.py under src/); it is not a dataclass field of the src Column and
is ignored by equality and traversal exactly like the underscore
fields. -/
inductive PNode where
  /-- `Name(name, quote_style)` -/
  | name (nm : String) (quoteStyle : String)
  /-- `Namespace(names)` -/
  | nspace (names : List PNode)
  /-- `Column(name, _namespace, _table)` (+ modelled api flag) -/
  | column (nm : PNode) (ns : Option PNode) (tbl : Option PNode) (api : Bool)
  /-- `Table(name, _namespace, _columns)` -/
  | table (nm : PNode) (ns : Option PNode) (cols : List PNode)
  /-- `Wildcard(_table)` -/
  | wildcard (tbl : Option PNode)
  /-- `Alias(name, _namespace, child)` -/
  | alias (nm : PNode) (ns : Option PNode) (child : PNode)
  /-- `Function(name, _namespace, args)` -/
  | function (nm : PNode) (ns : Option PNode) (args : List PNode)
  /-- `UnaryOp(op, expr)` -/
  | unaryOp (op : UnaryOpKind) (expr : PNode)
  /-- `BinaryOp(left, op, right)` -/
  | binaryOp (left : PNode) (op : BinaryOpKind) (right : PNode)
  /-- `Between(expr, low, high)` -/
  | between (expr low high : PNode)
  /-- `Case(conditions, else_result, operand, results)` -/
  | caseE (conditions : List PNode) (elseResult : Option PNode)
      (operand : Option PNode) (results : List PNode)
  /-- `IsNull(expr)` -/
  | isNull (expr : PNode)
  /-- `Number(value)` -/
  | number (value : PyVal)
  /-- `String(value)` -/
  | string (value : PyVal)
  /-- `Boolean(value)` -/
  | boolean (value : PyVal)
  /-- `Join(kind, table, on)` -/
  | join (kind : JoinKind) (tbl : PNode) (onE : PNode)
  /-- `From(table, joins)` -/
  | fromN (tbl : PNode) (joins : List PNode)
  /-- `Select(distinct, from_, group_by, having, projection, where, limit)` -/
  | select (distinct : Bool) (fromC : PNode) (groupBy : List PNode)
      (having : Option PNode) (projection : List PNode)
      (whereC : Option PNode) (limit : Option PNode)
  /-- `Query(select, ctes)` -/
  | query (sel : PNode) (ctes : List PNode)
deriving Repr

/-- Concrete Python class of a node: `type(x)`. -/
inductive VTag where
  | name | nspace | column | table | wildcard | alias | function
  | unaryOp | binaryOp | between | caseE | isNull
  | number | string | boolean | join | fromN | select | query
deriving DecidableEq, Repr

/-- `type(x)` for a node value. -/
def PNode.tag : PNode → VTag
  | .name .. => .name
  | .nspace .. => .nspace
  | .column .. => .column
  | .table .. => .table
  | .wildcard .. => .wildcard
  | .alias .. => .alias
  | .function .. => .function
  | .unaryOp .. => .unaryOp
  | .binaryOp .. => .binaryOp
  | .between .. => .between
  | .caseE .. => .caseE
  | .isNull .. => .isNull
  | .number .. => .number
  | .string .. => .string
  | .boolean .. => .boolean
  | .join .. => .join
  | .fromN .. => .fromN
  | .select .. => .select
  | .query .. => .query

/-- `Node.fields(flat=True, nodes_only=True, obfuscated=False, nones=False)`
i.e. `Node.children`: the node-valued non-underscore dataclass fields in
declaration order, flattening list fields and skipping absent optionals.
Primitive and enum fields are filtered out by `nodes_only`; the
underscore fields (`_namespace`, `_table`, `_columns`, and the modelled
api flag) are excluded by the leading-underscore filter. -/
def PNode.children : PNode → List PNode
  | .name .. => []
  | .nspace names => names
  | .column nm _ _ _ => [nm]
  | .table nm _ _ => [nm]
  | .wildcard _ => []
  | .alias nm _ child => [nm, child]
  | .function nm _ args => nm :: args
  | .unaryOp _ e => [e]
  | .binaryOp l _ r => [l, r]
  | .between e lo hi => [e, lo, hi]
  | .caseE conds er op res => conds ++ er.toList ++ op.toList ++ res
  | .isNull e => [e]
  | .number _ => []
  | .string _ => []
  | .boolean _ => []
  | .join _ t o => [t, o]
  | .fromN t js => t :: js
  | .select _ f gb hv pr wh lim =>
      f :: (gb ++ hv.toList ++ pr ++ wh.toList ++ lim.toList)
  | .query s ctes => s :: ctes

theorem sizeOf_lt_of_mem_toList {c : PNode} {o : Option PNode}
    (h : c ∈ o.toList) : sizeOf c < sizeOf o := by
  cases o with
  | none => simp [Option.toList] at h
  | some x =>
      simp [Option.toList] at h
      subst h
      simp

/-- Every child is a strict subterm by size (used for termination and
for the strong inductions below). -/
theorem sizeOf_lt_of_mem_children {x c : PNode}
    (h : c ∈ x.children) : sizeOf c < sizeOf x := by
  cases x with
  | name nm q => simp [PNode.children] at h
  | nspace names =>
      simp only [PNode.children] at h
      have := List.sizeOf_lt_of_mem h
      simp only [PNode.nspace.sizeOf_spec]; omega
  | column nm ns tbl api =>
      simp only [PNode.children, List.mem_singleton] at h
      subst h; simp only [PNode.column.sizeOf_spec]; omega
  | table nm ns cols =>
      simp only [PNode.children, List.mem_singleton] at h
      subst h; simp only [PNode.table.sizeOf_spec]; omega
  | wildcard tbl => simp [PNode.children] at h
  | «alias» nm ns child =>
      simp only [PNode.children, List.mem_cons, List.mem_singleton,
        List.not_mem_nil, or_false] at h
      rcases h with h | h <;>
        (subst h; simp only [PNode.alias.sizeOf_spec]; omega)
  | function nm ns args =>
      simp only [PNode.children, List.mem_cons] at h
      rcases h with h | h
      · subst h; simp only [PNode.function.sizeOf_spec]; omega
      · have := List.sizeOf_lt_of_mem h
        simp only [PNode.function.sizeOf_spec]; omega
  | unaryOp op e =>
      simp only [PNode.children, List.mem_singleton] at h
      subst h; simp only [PNode.unaryOp.sizeOf_spec]; omega
  | binaryOp l op r =>
      simp only [PNode.children, List.mem_cons, List.mem_singleton,
        List.not_mem_nil, or_false] at h
      rcases h with h | h <;>
        (subst h; simp only [PNode.binaryOp.sizeOf_spec]; omega)
  | between e lo hi =>
      simp only [PNode.children, List.mem_cons, List.mem_singleton,
        List.not_mem_nil, or_false] at h
      rcases h with h | h | h <;>
        (subst h; simp only [PNode.between.sizeOf_spec]; omega)
  | caseE conds er op res =>
      simp only [PNode.children, List.mem_append] at h
      rcases h with ((h | h) | h) | h
      · have := List.sizeOf_lt_of_mem h
        simp only [PNode.caseE.sizeOf_spec]; omega
      · have := sizeOf_lt_of_mem_toList h
        simp only [PNode.caseE.sizeOf_spec]; omega
      · have := sizeOf_lt_of_mem_toList h
        simp only [PNode.caseE.sizeOf_spec]; omega
      · have := List.sizeOf_lt_of_mem h
        simp only [PNode.caseE.sizeOf_spec]; omega
  | isNull e =>
      simp only [PNode.children, List.mem_singleton] at h
      subst h; simp only [PNode.isNull.sizeOf_spec]; omega
  | number v => simp [PNode.children] at h
  | string v => simp [PNode.children] at h
  | boolean v => simp [PNode.children] at h
  | join kind t o =>
      simp only [PNode.children, List.mem_cons, List.mem_singleton,
        List.not_mem_nil, or_false] at h
      rcases h with h | h <;>
        (subst h; simp only [PNode.join.sizeOf_spec]; omega)
  | fromN t js =>
      simp only [PNode.children, List.mem_cons] at h
      rcases h with h | h
      · subst h; simp only [PNode.fromN.sizeOf_spec]; omega
      · have := List.sizeOf_lt_of_mem h
        simp only [PNode.fromN.sizeOf_spec]; omega
  | select d f gb hv pr wh lim =>
      simp only [PNode.children, List.mem_cons, List.mem_append] at h
      rcases h with h | ((((h | h) | h) | h) | h)
      · subst h; simp only [PNode.select.sizeOf_spec]; omega
      · have := List.sizeOf_lt_of_mem h
        simp only [PNode.select.sizeOf_spec]; omega
      · have := sizeOf_lt_of_mem_toList h
        simp only [PNode.select.sizeOf_spec]; omega
      · have := List.sizeOf_lt_of_mem h
        simp only [PNode.select.sizeOf_spec]; omega
      · have := sizeOf_lt_of_mem_toList h
        simp only [PNode.select.sizeOf_spec]; omega
      · have := sizeOf_lt_of_mem_toList h
        simp only [PNode.select.sizeOf_spec]; omega
  | query s ctes =>
      simp only [PNode.children, List.mem_cons] at h
      rcases h with h | h
      · subst h; simp only [PNode.query.sizeOf_spec]; omega
      · have := List.sizeOf_lt_of_mem h
        simp only [PNode.query.sizeOf_spec]; omega

/-- Python `==` between two field values compared in the "primitive"
branch of `Node.__eq__` when both are numbers or bools: Python numeric
equality identifies `5 == 5.0` and `True == 1`. -/
def PyVal.asRat : PyVal → Option Rat
  | .pInt n => some (n : Rat)
  | .pFloat q => some q
  | .pBool b => some (if b then 1 else 0)
  | .pStr _ => none

/-- Python `==` on two `Value.value` payloads (the `s == o` branch of
`Node.__eq__` for primitive-typed fields): numbers and booleans compare
numerically across types, strings compare by text, numbers never equal
strings. -/
def pyValEq (a b : PyVal) : Bool :=
  match a.asRat, b.asRat with
  | some x, some y => x == y
  | none, none =>
      match a, b with
      | .pStr s, .pStr t => s == t
      | _, _ => false
  | _, _ => false

/-- `type(s) == type(o)` for two node-valued fields. -/
def tagEq (a b : PNode) : Bool := a.tag == b.tag

/-- `Node.__eq__` comparison of an `Optional[Node]` dataclass field:
`None` is a Python primitive compared by value (`None == None` only),
a present node is compared by concrete type. -/
def optTagEq : Option PNode → Option PNode → Bool
  | none, none => true
  | some a, some b => tagEq a b
  | _, _ => false

/-- `Node.__eq__` from ast.py: same concrete type, and the pairwise
comparison, in dataclass order, of every non-underscore field where a
field whose runtime type is in `{int, float, str, bool, NoneType}` is
compared by value and every other field (nested nodes, enum members and
lists) only by runtime type.  Consequences faithfully reproduced here:
list-valued fields always compare equal (`type(list) == type(list)`),
enum operator fields always compare equal (both members have the same
enum class), and node-valued fields compare by variant only. -/
def shallowEq : PNode → PNode → Bool
  | .name n1 q1, .name n2 q2 => n1 == n2 && q1 == q2
  | .nspace _, .nspace _ => true
  | .column n1 _ _ _, .column n2 _ _ _ => tagEq n1 n2
  | .table n1 _ _, .table n2 _ _ => tagEq n1 n2
  | .wildcard _, .wildcard _ => true
  | .alias n1 _ c1, .alias n2 _ c2 => tagEq n1 n2 && tagEq c1 c2
  | .function n1 _ _, .function n2 _ _ => tagEq n1 n2
  | .unaryOp _ e1, .unaryOp _ e2 => tagEq e1 e2
  | .binaryOp l1 _ r1, .binaryOp l2 _ r2 => tagEq l1 l2 && tagEq r1 r2
  | .between e1 lo1 hi1, .between e2 lo2 hi2 =>
      tagEq e1 e2 && tagEq lo1 lo2 && tagEq hi1 hi2
  | .caseE _ er1 op1 _, .caseE _ er2 op2 _ =>
      optTagEq er1 er2 && optTagEq op1 op2
  | .isNull e1, .isNull e2 => tagEq e1 e2
  | .number v1, .number v2 => pyValEq v1 v2
  | .string v1, .string v2 => pyValEq v1 v2
  | .boolean v1, .boolean v2 => pyValEq v1 v2
  | .join _ t1 o1, .join _ t2 o2 => tagEq t1 t2 && tagEq o1 o2
  | .fromN t1 _, .fromN t2 _ => tagEq t1 t2
  | .select d1 f1 _ hv1 _ wh1 lim1, .select d2 f2 _ hv2 _ wh2 lim2 =>
      d1 == d2 && tagEq f1 f2 && optTagEq hv1 hv2 && optTagEq wh1 wh2 &&
        optTagEq lim1 lim2
  | .query s1 _, .query s2 _ => tagEq s1 s2
  | _, _ => false

/-- One position of `itertools.zip_longest(a.children, b.children)`:
either both sides are present, or only one (the other filled with
`None`).  A both-`None` position never occurs. -/
inductive OPair (α : Type) where
  | both (a b : α)
  | left (a : α)
  | right (b : α)
deriving DecidableEq, Repr

/-- `itertools.zip_longest` over two lists (fill value `None` encoded
by the one-sided `OPair` constructors). -/
def zipLongest {α : Type} : List α → List α → List (OPair α)
  | [], [] => []
  | a :: as_, [] => .left a :: zipLongest as_ []
  | [], b :: bs => .right b :: zipLongest [] bs
  | a :: as_, b :: bs => .both a b :: zipLongest as_ bs

theorem zipLongest_nil_right {α : Type} :
    ∀ l : List α, zipLongest l [] = l.map OPair.left := by
  intro l
  induction l with
  | nil => simp [zipLongest]
  | cons x xs ih => simp [zipLongest, ih]

theorem zipLongest_nil_left {α : Type} :
    ∀ l : List α, zipLongest [] l = l.map OPair.right := by
  intro l
  induction l with
  | nil => simp [zipLongest]
  | cons x xs ih => simp [zipLongest, ih]

theorem mem_zipLongest_both {α : Type} {a b : α} :
    ∀ {l1 l2 : List α}, OPair.both a b ∈ zipLongest l1 l2 →
      a ∈ l1 ∧ b ∈ l2 := by
  intro l1
  induction l1 with
  | nil =>
      intro l2 h
      rw [zipLongest_nil_left] at h
      simp [List.mem_map] at h
  | cons x xs ih =>
      intro l2 h
      cases l2 with
      | nil =>
          rw [zipLongest_nil_right] at h
          simp [List.mem_map] at h
      | cons y ys =>
          simp only [zipLongest, List.mem_cons] at h
          rcases h with h | h
          · obtain ⟨h1, h2⟩ := OPair.both.inj h
            subst h1; subst h2
            exact ⟨List.mem_cons_self _ _, List.mem_cons_self _ _⟩
          · have := ih h
            exact ⟨List.mem_cons_of_mem _ this.1, List.mem_cons_of_mem _ this.2⟩


/-- `Node.diff` from ast.py, as the list of pairs appended by the inner
`_diff` procedure: if the (possibly `None`-filled) pair fails `!=` the
pair is recorded and nothing below it is visited; otherwise `_diff`
recurses over `zip_longest(self.children, other.children)`.  A one-sided
position always fails Python `!=` against `None`, so it is recorded. -/
def diffPairs (a b : PNode) : List (Option PNode × Option PNode) :=
  if shallowEq a b then
    (zipLongest a.children b.children).attach.flatMap
      (fun x =>
        match x with
        | ⟨.both c d, _⟩ => diffPairs c d
        | ⟨.left c, _⟩ => [(some c, none)]
        | ⟨.right d, _⟩ => [(none, some d)])
  else [(some a, some b)]
termination_by sizeOf a
decreasing_by
  exact sizeOf_lt_of_mem_children (mem_zipLongest_both (by assumption)).1

/-- One `_diff` step on a `zip_longest` position. -/
def diffStep : OPair PNode → List (Option PNode × Option PNode)
  | .both c d => diffPairs c d
  | .left c => [(some c, none)]
  | .right d => [(none, some d)]

theorem attach_flatMap_eq {α β : Type} (l : List α) (f : α → List β) :
    l.attach.flatMap (fun x => f x.1) = l.flatMap f := by
  simp only [List.flatMap, List.attach, List.attachWith, List.map_pmap,
    List.pmap_eq_map]

/-- The recursive equation of `diffPairs` with the termination
bookkeeping removed. -/
theorem diffPairs_def (a b : PNode) :
    diffPairs a b =
      if shallowEq a b then
        (zipLongest a.children b.children).flatMap diffStep
      else [(some a, some b)] := by
  rw [diffPairs]
  by_cases h : shallowEq a b
  · simp only [h, if_true]
    have : (fun (x : {x // x ∈ zipLongest a.children b.children}) =>
        match x with
        | ⟨.both c d, _⟩ => diffPairs c d
        | ⟨.left c, _⟩ => [(some c, none)]
        | ⟨.right d, _⟩ => [(none, some d)]) =
        (fun x => diffStep x.1) := by
      funext x
      obtain ⟨op, hop⟩ := x
      cases op <;> rfl
    rw [this, attach_flatMap_eq]
  · simp [h]

/-- `Node.compare` from ast.py: `not self.diff(other)`. -/
def compareB (a b : PNode) : Bool := (diffPairs a b).isEmpty


mutual
/-- Structural projection of a node: clears every leading-underscore
dataclass field (`_namespace`, `_table`, `_columns`) and the modelled
api flag, recursively.  `Node.__eq__` and `Node.diff` read none of
these fields, which is what makes back-reference mutation invisible to
them. -/
def strip : PNode → PNode
  | .name n q => .name n q
  | .nspace names => .nspace (stripList names)
  | .column nm _ _ _ => .column (strip nm) none none false
  | .table nm _ _ => .table (strip nm) none []
  | .wildcard _ => .wildcard none
  | .alias nm _ c => .alias (strip nm) none (strip c)
  | .function nm _ args => .function (strip nm) none (stripList args)
  | .unaryOp op e => .unaryOp op (strip e)
  | .binaryOp l op r => .binaryOp (strip l) op (strip r)
  | .between e lo hi => .between (strip e) (strip lo) (strip hi)
  | .caseE conds er op res =>
      .caseE (stripList conds) (stripOpt er) (stripOpt op) (stripList res)
  | .isNull e => .isNull (strip e)
  | .number v => .number v
  | .string v => .string v
  | .boolean v => .boolean v
  | .join k t o => .join k (strip t) (strip o)
  | .fromN t js => .fromN (strip t) (stripList js)
  | .select d f gb hv pr wh lim =>
      .select d (strip f) (stripList gb) (stripOpt hv) (stripList pr)
        (stripOpt wh) (stripOpt lim)
  | .query s ctes => .query (strip s) (stripList ctes)

/-- `strip` mapped over a list field. -/
def stripList : List PNode → List PNode
  | [] => []
  | x :: xs => strip x :: stripList xs

/-- `strip` mapped over an optional field. -/
def stripOpt : Option PNode → Option PNode
  | none => none
  | some x => some (strip x)
end

theorem stripList_eq_map : ∀ l : List PNode, stripList l = l.map strip := by
  intro l
  induction l with
  | nil => simp [stripList]
  | cons x xs ih => simp [stripList, ih]

theorem stripOpt_eq_map : ∀ o : Option PNode, stripOpt o = o.map strip := by
  intro o
  cases o <;> simp [stripOpt]

theorem stripOpt_toList (o : Option PNode) :
    (stripOpt o).toList = o.toList.map strip := by
  cases o <;> simp [stripOpt]

theorem tag_strip (x : PNode) : (strip x).tag = x.tag := by
  cases x <;> simp [strip, PNode.tag]

theorem tagEq_strip (a b : PNode) : tagEq (strip a) (strip b) = tagEq a b := by
  simp [tagEq, tag_strip]

theorem optTagEq_strip (o1 o2 : Option PNode) :
    optTagEq (stripOpt o1) (stripOpt o2) = optTagEq o1 o2 := by
  cases o1 <;> cases o2 <;> simp [stripOpt, optTagEq, tagEq_strip]

set_option maxHeartbeats 3000000 in
/-- Shallow equality depends only on the structural projection. -/
theorem shallowEq_strip (a b : PNode) :
    shallowEq (strip a) (strip b) = shallowEq a b := by
  cases a <;> cases b <;>
    simp only [strip, shallowEq, tagEq_strip, optTagEq_strip]

/-- `children` commutes with the structural projection. -/
theorem children_strip (x : PNode) :
    (strip x).children = x.children.map strip := by
  cases x <;>
    simp [strip, PNode.children, stripList_eq_map, stripOpt_toList]

/-- `OPair.map`. -/
def OPair.map {α β : Type} (f : α → β) : OPair α → OPair β
  | .both a b => .both (f a) (f b)
  | .left a => .left (f a)
  | .right b => .right (f b)

theorem zipLongest_map {α β : Type} (f : α → β) :
    ∀ l1 l2 : List α,
      zipLongest (l1.map f) (l2.map f) =
        (zipLongest l1 l2).map (OPair.map f) := by
  intro l1
  induction l1 with
  | nil =>
      intro l2
      simp only [List.map_nil, zipLongest_nil_left, List.map_map]
      rfl
  | cons x xs ih =>
      intro l2
      cases l2 with
      | nil =>
          simp only [List.map_nil, List.map_cons, zipLongest_nil_right,
            List.map_map]
          rfl
      | cons y ys => simp [zipLongest, ih, OPair.map]

/-- The pairs recorded by `diff` depend only on structural projections:
diffing stripped trees records the stripped pairs. -/
theorem diffPairs_strip_aux :
    ∀ n, ∀ a b : PNode, sizeOf a < n →
      diffPairs (strip a) (strip b) =
        (diffPairs a b).map
          (fun p => (p.1.map strip, p.2.map strip)) := by
  intro n
  induction n with
  | zero => intro a b h; omega
  | succ n ih =>
      intro a b hsz
      rw [diffPairs_def, diffPairs_def, shallowEq_strip]
      by_cases hEq : shallowEq a b
      · simp only [hEq, if_true]
        rw [children_strip, children_strip, zipLongest_map,
          List.flatMap_map, List.map_flatMap]
        apply List.flatMap_congr
        intro op hop
        cases op with
        | both c d =>
            have hc : c ∈ a.children := (mem_zipLongest_both hop).1
            have : sizeOf c < n :=
              Nat.lt_of_lt_of_le (sizeOf_lt_of_mem_children hc)
                (Nat.lt_succ_iff.mp hsz)
            exact ih c d this
        | left c => simp [OPair.map, diffStep]
        | right d => simp [OPair.map, diffStep]
      · simp [hEq]

theorem diffPairs_strip (a b : PNode) :
    diffPairs (strip a) (strip b) =
      (diffPairs a b).map (fun p => (p.1.map strip, p.2.map strip)) :=
  diffPairs_strip_aux (sizeOf a + 1) a b (Nat.lt_succ_self _)

/-- `compare` depends only on the structural projections. -/
theorem compareB_strip (a b : PNode) :
    compareB (strip a) (strip b) = compareB a b := by
  rw [compareB, compareB, diffPairs_strip]
  cases diffPairs a b <;> simp


/-- `Column.add_table` / `Wildcard.add_table` from ast.py: bind the
`_table` back-reference only if it is still `None` (first writer wins);
already-bound nodes are returned unchanged.  Other variants have no
`add_table` method, modelled as the identity. -/
def addTableNode : PNode → PNode → PNode
  | .column nm ns none api, t => .column nm ns (some t) api
  | .wildcard none, t => .wildcard (some t)
  | x, _ => x

/-- `Column.table` / `Wildcard.table` property (`None` elsewhere). -/
def tableOf : PNode → Option PNode
  | .column _ _ tb _ => tb
  | .wildcard tb => tb
  | _ => none

theorem strip_addTableNode (y t : PNode) :
    strip (addTableNode y t) = strip y := by
  cases y with
  | column nm ns tb api => cases tb <;> simp [addTableNode, strip]
  | wildcard tb => cases tb <;> simp [addTableNode, strip]
  | _ => simp [addTableNode]

/-- Conditionally apply `add_table` at one node (whether this call site
selected this node). -/
def condAddTable (sel : PNode → Bool) (t : PNode) (y : PNode) : PNode :=
  if sel y then addTableNode y t else y

theorem strip_condAddTable (sel : PNode → Bool) (t y : PNode) :
    strip (condAddTable sel t y) = strip y := by
  unfold condAddTable
  by_cases h : sel y <;> simp [h, strip_addTableNode]

mutual
/-- Perform `add_table(t)` on every node of the tree selected by `sel`
(an arbitrary set of call targets), leaving all structural fields
untouched.  This models an arbitrary batch of `add_table` calls on
nodes of the tree. -/
def addTableAll (sel : PNode → Bool) (t : PNode) : PNode → PNode
  | .name n q => condAddTable sel t (.name n q)
  | .nspace names => condAddTable sel t (.nspace (addTableAllList sel t names))
  | .column nm ns tb api =>
      condAddTable sel t (.column (addTableAll sel t nm) ns tb api)
  | .table nm ns cols =>
      condAddTable sel t (.table (addTableAll sel t nm) ns cols)
  | .wildcard tb => condAddTable sel t (.wildcard tb)
  | .alias nm ns c =>
      condAddTable sel t (.alias (addTableAll sel t nm) ns (addTableAll sel t c))
  | .function nm ns args =>
      condAddTable sel t
        (.function (addTableAll sel t nm) ns (addTableAllList sel t args))
  | .unaryOp op e => condAddTable sel t (.unaryOp op (addTableAll sel t e))
  | .binaryOp l op r =>
      condAddTable sel t (.binaryOp (addTableAll sel t l) op (addTableAll sel t r))
  | .between e lo hi =>
      condAddTable sel t
        (.between (addTableAll sel t e) (addTableAll sel t lo) (addTableAll sel t hi))
  | .caseE conds er op res =>
      condAddTable sel t
        (.caseE (addTableAllList sel t conds) (addTableAllOpt sel t er)
          (addTableAllOpt sel t op) (addTableAllList sel t res))
  | .isNull e => condAddTable sel t (.isNull (addTableAll sel t e))
  | .number v => condAddTable sel t (.number v)
  | .string v => condAddTable sel t (.string v)
  | .boolean v => condAddTable sel t (.boolean v)
  | .join k tb o =>
      condAddTable sel t (.join k (addTableAll sel t tb) (addTableAll sel t o))
  | .fromN tb js =>
      condAddTable sel t
        (.fromN (addTableAll sel t tb) (addTableAllList sel t js))
  | .select d f gb hv pr wh lim =>
      condAddTable sel t
        (.select d (addTableAll sel t f) (addTableAllList sel t gb)
          (addTableAllOpt sel t hv) (addTableAllList sel t pr)
          (addTableAllOpt sel t wh) (addTableAllOpt sel t lim))
  | .query s ctes =>
      condAddTable sel t (.query (addTableAll sel t s) (addTableAllList sel t ctes))

/-- `addTableAll` over a list field. -/
def addTableAllList (sel : PNode → Bool) (t : PNode) : List PNode → List PNode
  | [] => []
  | x :: xs => addTableAll sel t x :: addTableAllList sel t xs

/-- `addTableAll` over an optional field. -/
def addTableAllOpt (sel : PNode → Bool) (t : PNode) : Option PNode → Option PNode
  | none => none
  | some x => some (addTableAll sel t x)
end

mutual
theorem strip_addTableAll (sel : PNode → Bool) (t : PNode) :
    ∀ x, strip (addTableAll sel t x) = strip x
  | .name n q => by
      rw [addTableAll, strip_condAddTable]
  | .nspace names => by
      rw [addTableAll, strip_condAddTable]
      simp [strip, strip_addTableAllList sel t names]
  | .column nm ns tb api => by
      rw [addTableAll, strip_condAddTable]
      simp [strip, strip_addTableAll sel t nm]
  | .table nm ns cols => by
      rw [addTableAll, strip_condAddTable]
      simp [strip, strip_addTableAll sel t nm]
  | .wildcard tb => by
      rw [addTableAll, strip_condAddTable]
  | .alias nm ns c => by
      rw [addTableAll, strip_condAddTable]
      simp [strip, strip_addTableAll sel t nm, strip_addTableAll sel t c]
  | .function nm ns args => by
      rw [addTableAll, strip_condAddTable]
      simp [strip, strip_addTableAll sel t nm, strip_addTableAllList sel t args]
  | .unaryOp op e => by
      rw [addTableAll, strip_condAddTable]
      simp [strip, strip_addTableAll sel t e]
  | .binaryOp l op r => by
      rw [addTableAll, strip_condAddTable]
      simp [strip, strip_addTableAll sel t l, strip_addTableAll sel t r]
  | .between e lo hi => by
      rw [addTableAll, strip_condAddTable]
      simp [strip, strip_addTableAll sel t e, strip_addTableAll sel t lo,
        strip_addTableAll sel t hi]
  | .caseE conds er op res => by
      rw [addTableAll, strip_condAddTable]
      simp [strip, strip_addTableAllList sel t conds,
        strip_addTableAllOpt sel t er, strip_addTableAllOpt sel t op,
        strip_addTableAllList sel t res]
  | .isNull e => by
      rw [addTableAll, strip_condAddTable]
      simp [strip, strip_addTableAll sel t e]
  | .number v => by
      rw [addTableAll, strip_condAddTable]
  | .string v => by
      rw [addTableAll, strip_condAddTable]
  | .boolean v => by
      rw [addTableAll, strip_condAddTable]
  | .join k tb o => by
      rw [addTableAll, strip_condAddTable]
      simp [strip, strip_addTableAll sel t tb, strip_addTableAll sel t o]
  | .fromN tb js => by
      rw [addTableAll, strip_condAddTable]
      simp [strip, strip_addTableAll sel t tb, strip_addTableAllList sel t js]
  | .select d f gb hv pr wh lim => by
      rw [addTableAll, strip_condAddTable]
      simp [strip, strip_addTableAll sel t f, strip_addTableAllList sel t gb,
        strip_addTableAllOpt sel t hv, strip_addTableAllList sel t pr,
        strip_addTableAllOpt sel t wh, strip_addTableAllOpt sel t lim]
  | .query s ctes => by
      rw [addTableAll, strip_condAddTable]
      simp [strip, strip_addTableAll sel t s, strip_addTableAllList sel t ctes]

theorem strip_addTableAllList (sel : PNode → Bool) (t : PNode) :
    ∀ l, stripList (addTableAllList sel t l) = stripList l
  | [] => by rw [addTableAllList]
  | x :: xs => by
      rw [addTableAllList]
      simp [stripList, strip_addTableAll sel t x, strip_addTableAllList sel t xs]

theorem strip_addTableAllOpt (sel : PNode → Bool) (t : PNode) :
    ∀ o, stripOpt (addTableAllOpt sel t o) = stripOpt o
  | none => by rw [addTableAllOpt]
  | some x => by
      rw [addTableAllOpt]
      simp [stripOpt, strip_addTableAll sel t x]
end


/-- One back-reference call performed on a tree: an `add_table(t)` call
on an arbitrary set of target nodes, or an `add_parents(...)` call.
`add_parents` only updates `_parents`, which is not a dataclass field
(it lives outside the dataclass-field traversal entirely; in this
embedding parent sets are the separate edge-list state of
`compileParentsMap` below), so it does not change the tree value. -/
inductive RefOp where
  | addTable (sel : PNode → Bool) (t : PNode)
  | addParents (sel : PNode → Bool)

/-- Apply one back-reference call to the tree value. -/
def applyRefOp : RefOp → PNode → PNode
  | .addTable sel t, x => addTableAll sel t x
  | .addParents _, x => x

/-- Apply a sequence of back-reference calls in order. -/
def applyRefOps : List RefOp → PNode → PNode
  | [], x => x
  | o :: os, x => applyRefOps os (applyRefOp o x)

theorem strip_applyRefOp (o : RefOp) (x : PNode) :
    strip (applyRefOp o x) = strip x := by
  cases o with
  | addTable sel t => exact strip_addTableAll sel t x
  | addParents sel => rfl

theorem strip_applyRefOps :
    ∀ (ops : List RefOp) (x : PNode), strip (applyRefOps ops x) = strip x := by
  intro ops
  induction ops with
  | nil => intro x; rfl
  | cons o os ih =>
      intro x
      rw [applyRefOps, ih, strip_applyRefOp]

/-!
## Parent sets (`_parents`, `add_parents`, `compile_parents`)

`_parents` is instance state outside the dataclass fields.  We model
each node occurrence by its position (path of child indices from the
root) and the parent sets of a tree by a list of
`(child position, parent position)` edges with set-insertion semantics:
`set.update` adds an element only if it is not already present, leaving
the set unchanged otherwise.  This models the hand-built,
non-aliased-tree case the method is documented for ("useful for
building asts by hand").
-/

/-- `set.update {parent}` on the edge list: insert if absent. -/
def insEdge (m : List (List Nat × List Nat)) (e : List Nat × List Nat) :
    List (List Nat × List Nat) :=
  if e ∈ m then m else m ++ [e]

theorem mem_of_mem_enum {α : Type} :
    ∀ {l : List α} {i : Nat} {a : α}, (i, a) ∈ l.enum → a ∈ l := by
  intro l i a h
  have h2 := List.mem_enumFrom h
  have h3 : a = l[i - 0] := h2.2.2
  have h4 : i - 0 < l.length := by
    have := h2.2.1
    omega
  rw [h3]
  exact List.getElem_mem h4

/-- The `(child, parent)` insertions performed, in order, by
`compile_parents`: `apply` visits pre-order, and each visited node adds
itself as a parent of each of its children
(`Node.add_self_as_parent`). -/
def travPairs (p : List Nat) (t : PNode) : List (List Nat × List Nat) :=
  (List.range t.children.length).map (fun i => (p ++ [i], p)) ++
    t.children.enum.attach.flatMap
      (fun x =>
        match x with
        | ⟨(i, c), _⟩ => travPairs (p ++ [i]) c)
termination_by sizeOf t
decreasing_by
  exact sizeOf_lt_of_mem_children (mem_of_mem_enum (by assumption))

/-- `Node.compile_parents` on the parent-edge state: fold the insertion
sequence over the current state. -/
def compileParentsMap (t : PNode) (m : List (List Nat × List Nat)) :
    List (List Nat × List Nat) :=
  (travPairs [] t).foldl insEdge m

theorem mem_insEdge_of_mem {m : List (List Nat × List Nat)}
    {e f : List Nat × List Nat} (h : e ∈ m) : e ∈ insEdge m f := by
  unfold insEdge
  by_cases hf : f ∈ m <;> simp [hf, h]

theorem mem_insEdge_self (m : List (List Nat × List Nat))
    (e : List Nat × List Nat) : e ∈ insEdge m e := by
  unfold insEdge
  by_cases hf : e ∈ m <;> simp [hf]

theorem insEdge_of_mem {m : List (List Nat × List Nat)}
    {e : List Nat × List Nat} (h : e ∈ m) : insEdge m e = m := by
  simp [insEdge, h]

theorem mem_foldl_insEdge_of_mem_state :
    ∀ (ps : List (List Nat × List Nat)) (m : List (List Nat × List Nat))
      (e : List Nat × List Nat), e ∈ m → e ∈ ps.foldl insEdge m := by
  intro ps
  induction ps with
  | nil => intro m e h; exact h
  | cons p rest ih =>
      intro m e h
      exact ih (insEdge m p) e (mem_insEdge_of_mem h)

theorem mem_foldl_insEdge_of_mem_list :
    ∀ (ps : List (List Nat × List Nat)) (m : List (List Nat × List Nat))
      (e : List Nat × List Nat), e ∈ ps → e ∈ ps.foldl insEdge m := by
  intro ps
  induction ps with
  | nil => intro m e h; simp at h
  | cons p rest ih =>
      intro m e h
      rcases List.mem_cons.mp h with h | h
      · subst h
        exact mem_foldl_insEdge_of_mem_state rest _ e (mem_insEdge_self m e)
      · exact ih _ e h

theorem foldl_insEdge_stable :
    ∀ (ps : List (List Nat × List Nat)) (m : List (List Nat × List Nat)),
      (∀ e ∈ ps, e ∈ m) → ps.foldl insEdge m = m := by
  intro ps
  induction ps with
  | nil => intro m _; rfl
  | cons p rest ih =>
      intro m h
      have hp : p ∈ m := h p (List.mem_cons_self _ _)
      rw [List.foldl_cons, insEdge_of_mem hp]
      exact ih m (fun e he => h e (List.mem_cons_of_mem _ he))


/-- The value fed to Python `hash` by a node's `__hash__`, when that
value is determined by the node alone.  Python guarantees that equal
hash inputs give equal hashes, so two nodes with the same `HashVal`
always hash alike, while distinct `HashVal`s carry no such guarantee
(and in CPython hash differently in all but accidental collisions).
`hEnum` carries the enum member (enum members hash as distinct,
interned objects); `hClass` a class object; `hNum` a Python numeric
hash argument (`hash(5) == hash(5.0)` in Python, hence one rational). -/
inductive HashVal where
  | hStr (s : String)
  | hNum (q : Rat)
  | hClass (t : VTag)
  | hEnum (member : String)
  | hTup2 (a b : HashVal)
  | hTup3 (a b c : HashVal)
deriving DecidableEq, Repr

/-- Hash argument of a `Value.value` payload. -/
def PyVal.hashArg : PyVal → HashVal
  | .pInt n => .hNum (n : Rat)
  | .pFloat q => .hNum q
  | .pBool b => .hNum (if b then 1 else 0)
  | .pStr s => .hStr s

/-- Enum member tokens for hashing. -/
def UnaryOpKind.memberName : UnaryOpKind → String
  | .plus => "Plus"
  | .minus => "Minus"
  | .not => "Not"

def BinaryOpKind.memberName : BinaryOpKind → String
  | .and => "And"
  | .or => "Or"
  | .is => "Is"
  | .eq => "Eq"
  | .notEq => "NotEq"
  | .gt => "Gt"
  | .lt => "Lt"
  | .gtEq => "GtEq"
  | .ltEq => "LtEq"
  | .bitwiseOr => "BitwiseOr"
  | .bitwiseAnd => "BitwiseAnd"
  | .bitwiseXor => "BitwiseXor"
  | .multiply => "Multiply"
  | .divide => "Divide"
  | .plus => "Plus"
  | .minus => "Minus"
  | .modulo => "Modulo"

def JoinKind.memberName : JoinKind → String
  | .inner => "Inner"
  | .leftOuter => "LeftOuter"
  | .rightOuter => "RightOuter"
  | .fullOuter => "FullOuter"
  | .crossJoin => "CrossJoin"

/-- The `__hash__` of each variant from ast.py, as the hash input it
computes, where that input is a function of the node value:
`Name` hashes `name + quote_style`; `Namespace`, `Function`, `IsNull`
hash their class object (and `Wildcard` hashes `id(Wildcard)`, the
class object, also constant); `Column`/`Table`/`Alias` hash
`(Class, self.name)`; `UnaryOp`/`BinaryOp`/`Join` hash
`(Class, op-or-kind)`; `Between` hashes `(Between, hash(low), hash(high))`;
the literals hash `(Class, value)`.  `Case`, `From`, `Select` and
`Query` hash `id(self)`, the object address, which is NOT a function of
the node value: for those (and for any `Between` over them) the result
is `none`. -/
def pyHashV : PNode → Option HashVal
  | .name n q => some (.hStr (n ++ q))
  | .nspace _ => some (.hClass .nspace)
  | .column nm _ _ _ => do
      let hn ← pyHashV nm
      some (.hTup2 (.hClass .column) hn)
  | .table nm _ _ => do
      let hn ← pyHashV nm
      some (.hTup2 (.hClass .table) hn)
  | .wildcard _ => some (.hClass .wildcard)
  | .alias nm _ _ => do
      let hn ← pyHashV nm
      some (.hTup2 (.hClass .alias) hn)
  | .function _ _ _ => some (.hClass .function)
  | .unaryOp op _ => some (.hTup2 (.hClass .unaryOp) (.hEnum op.memberName))
  | .binaryOp _ op _ => some (.hTup2 (.hClass .binaryOp) (.hEnum op.memberName))
  | .between _ lo hi => do
      let hlo ← pyHashV lo
      let hhi ← pyHashV hi
      some (.hTup3 (.hClass .between) hlo hhi)
  | .caseE _ _ _ _ => none
  | .isNull _ => some (.hClass .isNull)
  | .number v => some (.hTup2 (.hClass .number) v.hashArg)
  | .string v => some (.hTup2 (.hClass .string) v.hashArg)
  | .boolean v => some (.hTup2 (.hClass .boolean) v.hashArg)
  | .join k _ _ => some (.hTup2 (.hClass .join) (.hEnum k.memberName))
  | .fromN _ _ => none
  | .select _ _ _ _ _ _ _ => none
  | .query _ _ => none

/-!
## `Number.__post_init__` (literal normalization)

`int(...)` and `float(...)` are Python builtins; we model the part of
their behaviour exercised here: `int` of an `int`/`bool` converts
exactly, `int` of a string accepts an optionally signed decimal
integer and raises `ValueError` otherwise; `float` of a string accepts
an optionally signed decimal with an optional fractional part
(surrounding-whitespace stripping, exponent and infinity forms are not
needed by the claims and are not modelled).
-/

def digitVal (c : Char) : Option Nat :=
  let n := c.toNat
  if 48 ≤ n ∧ n ≤ 57 then some (n - 48) else none

def digitsToNat : List Char → Option Nat
  | [] => none
  | cs =>
      cs.foldl
        (fun acc c =>
          match acc, digitVal c with
          | some n, some d => some (10 * n + d)
          | _, _ => none)
        (some 0)

/-- `int(s)` for a string `s` (decimal literals only). -/
def pyIntOfString (s : String) : Option Int :=
  match s.toList with
  | '+' :: rest => (digitsToNat rest).map Int.ofNat
  | '-' :: rest => (digitsToNat rest).map (fun n => -(n : Int))
  | rest => (digitsToNat rest).map Int.ofNat

/-- `float(s)` for a string `s` (signed decimal with optional
fractional part). -/
def pyFloatOfString (s : String) : Option Rat :=
  let parseUnsigned : List Char → Option Rat := fun cs =>
    match cs.splitOn '.' with
    | [ip] => (digitsToNat ip).map (fun n => (n : Rat))
    | [ip, fp] =>
        if ip.isEmpty && fp.isEmpty then none
        else
          let ipn := if ip.isEmpty then some 0 else digitsToNat ip
          let fpn := if fp.isEmpty then some 0 else digitsToNat fp
          match ipn, fpn with
          | some i, some f => some ((i : Rat) + (f : Rat) / ((10 : Rat) ^ fp.length))
          | _, _ => none
    | _ => none
  match s.toList with
  | '+' :: rest => parseUnsigned rest
  | '-' :: rest => (parseUnsigned rest).map Neg.neg
  | rest => parseUnsigned rest

/-- `ValueError` (or, unmodelled, `TypeError`) from the builtins. -/
inductive PyErr where
  | valueError
deriving DecidableEq, Repr

/-- `Number.__post_init__` from ast.py: values whose type is already
`int` or `float` are kept unchanged; any other value is converted with
`int(...)` first (`bool` converts exactly), falling back to
`float(...)` only when integer conversion raises; if both raise, the
error propagates. -/
def numberPostInit : PyVal → Except PyErr PyVal
  | .pInt n => .ok (.pInt n)
  | .pFloat q => .ok (.pFloat q)
  | .pBool b => .ok (.pInt (if b then 1 else 0))
  | .pStr s =>
      match pyIntOfString s with
      | some n => .ok (.pInt n)
      | none =>
          match pyFloatOfString s with
          | some q => .ok (.pFloat q)
          | none => .error .valueError

/-!
## `Namespace.to_column` / `Namespace.to_table`

Both pop the last `Name` off the namespace in place (so afterwards the
namespace holds one fewer name), build a `Column`/`Table` from it, and
attach the remaining namespace only if it is non-empty.  The mutated
namespace is returned alongside the result.  `add_self_as_parent` and
`clear_parents` only touch `_parents`, which lives outside the tree
value.  A `DJParseException` is raised on an empty namespace.
-/

inductive DJParseErr where
  | parseException (msg : String)
deriving DecidableEq, Repr

/-- `Namespace.to_column` from ast.py (state-passing: returns the new
column together with the namespace names left after `pop`). -/
def namespaceToColumn (names : List PNode) :
    Except DJParseErr (PNode × List PNode) :=
  if h : names.isEmpty then .error (.parseException "Namespace is empty")
  else
    let last := names.getLast (fun hnil => h (by rw [hnil]; rfl))
    let rest := names.dropLast
    let col : PNode :=
      if rest.isEmpty then .column last none none false
      else .column last (some (.nspace rest)) none false
    .ok (col, rest)

/-- `Namespace.to_table` from ast.py. -/
def namespaceToTable (names : List PNode) :
    Except DJParseErr (PNode × List PNode) :=
  if h : names.isEmpty then .error (.parseException "Namespace is empty")
  else
    let last := names.getLast (fun hnil => h (by rw [hnil]; rfl))
    let rest := names.dropLast
    let tbl : PNode :=
      if rest.isEmpty then .table last none []
      else .table last (some (.nspace rest)) []
    .ok (tbl, rest)


mutual
/-- `Node.flatten` / `Node.filter(always-true)`: depth-first pre-order
sequence of all nodes of the subtree, the node itself first, then each
child's subtree in `children` order. -/
def preorder : PNode → List PNode
  | .name n q => [.name n q]
  | .nspace names => .nspace names :: preorderList names
  | .column nm ns tb api => .column nm ns tb api :: preorder nm
  | .table nm ns cols => .table nm ns cols :: preorder nm
  | .wildcard tb => [.wildcard tb]
  | .alias nm ns c => .alias nm ns c :: (preorder nm ++ preorder c)
  | .function nm ns args => .function nm ns args :: (preorder nm ++ preorderList args)
  | .unaryOp op e => .unaryOp op e :: preorder e
  | .binaryOp l op r => .binaryOp l op r :: (preorder l ++ preorder r)
  | .between e lo hi => .between e lo hi :: (preorder e ++ preorder lo ++ preorder hi)
  | .caseE conds er op res =>
      .caseE conds er op res ::
        (preorderList conds ++ preorderOpt er ++ preorderOpt op ++ preorderList res)
  | .isNull e => .isNull e :: preorder e
  | .number v => [.number v]
  | .string v => [.string v]
  | .boolean v => [.boolean v]
  | .join k t o => .join k t o :: (preorder t ++ preorder o)
  | .fromN t js => .fromN t js :: (preorder t ++ preorderList js)
  | .select d f gb hv pr wh lim =>
      .select d f gb hv pr wh lim ::
        (preorder f ++ preorderList gb ++ preorderOpt hv ++ preorderList pr ++
          preorderOpt wh ++ preorderOpt lim)
  | .query s ctes => .query s ctes :: (preorder s ++ preorderList ctes)

/-- `preorder` concatenated over a list field. -/
def preorderList : List PNode → List PNode
  | [] => []
  | x :: xs => preorder x ++ preorderList xs

/-- `preorder` over an optional field. -/
def preorderOpt : Option PNode → List PNode
  | none => []
  | some x => preorder x
end

/-- `find_all(Column)` ≡ `filter(isinstance(-, Column))`: pre-order
filtered to Column nodes. -/
def findAllColumns (x : PNode) : List PNode :=
  (preorder x).filter (fun n => n.tag == VTag.column)

/-- `Column.set_api_column` — Modelled from the spec: the flag marking
a projection column as API-added (`set_api_column`); the method is
referenced by build.py but is not in the ast.py under src/.  It sets
the modelled api field of a Column and is the identity elsewhere. -/
def setApiColumn : PNode → Bool → PNode
  | .column nm ns tb _, b => .column nm ns tb b
  | x, _ => x

/-- Hash key under which a Column is stored in a Python `set`:
`hash((Column, self.name))`, i.e. the nested `Name`'s text and quote
style (`Name.__hash__` is `hash(name + quote_style)`). -/
def columnKey : PNode → String
  | .column (.name n q) _ _ _ => n ++ q
  | _ => ""

/-- `set(projection_addition)` for a list of Column nodes, modelled
collision-free: CPython keeps one element per hash bucket here because
any two Columns with the same key are `==` (and dropped) while Columns
with different keys hash apart (and are kept, `__eq__` notwithstanding).
CPython iterates a set in unspecified order; we fix the first-insertion
order, and the claims are stated insensitively to that order. -/
def dstep (acc : List PNode) (c : PNode) : List PNode :=
  if acc.any (fun d => columnKey d == columnKey c) then acc else acc ++ [c]

def dedupByKey (cols : List PNode) : List PNode :=
  cols.foldl dstep []

/-!
## The `BinaryOp` objects build.py actually constructs

build.py calls `ast.BinaryOp(ast.BinaryOpKind.Eq, X, Y)` and
`reduce(lambda left, right: ast.BinaryOp(ast.BinaryOpKind.And, left,
right), ...)` with the operator kind as the FIRST positional argument.
The `BinaryOp` dataclass of src ast.py declares its fields in the
order `left, op, right`, and dataclasses neither reorder nor type-check
positional arguments, so these calls build — without raising — objects
whose `left` slot holds the `BinaryOpKind` member and whose `op` and
`right` slots hold the two operand nodes.  Such an object does not fit
the well-typed `PNode.binaryOp` shape; `BuildExpr` records exactly the
slot assignment the program produces: `misBinaryOp k a b` is the
BinaryOp object with `left = k` (an enum member where a node belongs),
`op = a` and `right = b`, while `node x` is an ordinary AST node
(e.g. a parsed fragment, or the single element `reduce` returns
unwrapped when the list has length one).
-/
inductive BuildExpr where
  | node (x : PNode)
  | misBinaryOp (left : BinaryOpKind) (op : BuildExpr) (right : BuildExpr)

/-- `reduce(lambda left, right: ast.BinaryOp(ast.BinaryOpKind.And,
left, right), asts)` over a non-empty list: a one-element list comes
back unchanged; otherwise each combination step builds a `BinaryOp`
whose `left` slot holds the `And` kind and whose `op`/`right` slots
hold the accumulated and next operands (positional misbinding, see
`BuildExpr`). -/
def reduceAndB (first : BuildExpr) (rest : List BuildExpr) : BuildExpr :=
  rest.foldl (fun l r => .misBinaryOp .and l r) first

/-- The select/query state after `add_filters_and_aggs_to_query_ast`:
the same query object, whose `select.where` may now hold one of the
`BinaryOp` objects built by the reduce lambda (hence `BuildExpr`) and
whose projection has been extended. -/
structure FilteredQuery where
  distinct : Bool
  fromC : PNode
  groupBy : List PNode
  having : Option PNode
  projection : List PNode
  whereB : Option BuildExpr
  limit : Option PNode
  ctes : List PNode

/-- `add_filters_and_aggs_to_query_ast(query, dialect, filters, aggs=None)`
from build.py, for the filters path, on a query
`Query(Select(d, f, gb, hv, pr, wh, lim), ctes)`.  `parse` is the
external black-box parser (spec section 6); `parseWhere fs` stands for
`parse("select * where " + fs, dialect).select.where`, and the columns
collected from that temporary select are exactly the Column nodes of
the where fragment (the rest of the temporary select is one Wildcard,
which is not a Column).  `Node.copy` (absent from src ast.py) copies a
node; on immutable tree values it is the identity.  With an empty
filters list the `if filters:` branch is skipped and the final
projection extension appends the empty list.  The new WHERE is the
`reduce` over `[existing where, if any] ++ parsed fragments` of the
misbinding And-lambda (see `reduceAndB`). -/
def addFiltersToQueryAst (parseWhere : String → PNode) (d : Bool)
    (f : PNode) (gb : List PNode) (hv : Option PNode) (pr : List PNode)
    (wh : Option PNode) (lim : Option PNode) (ctes : List PNode)
    (filters : List String) : FilteredQuery :=
  match filters with
  | [] => ⟨d, f, gb, hv, pr, wh.map .node, lim, ctes⟩
  | f0 :: frest =>
      let fragments := (f0 :: frest).map parseWhere
      let filterAsts : List BuildExpr := (match wh with
        | some w => [BuildExpr.node w]
        | none => []) ++ fragments.map .node
      let newWhere : Option BuildExpr := match filterAsts with
        | [] => none
        | w0 :: wrest => some (reduceAndB w0 wrest)
      let projectionAddition := fragments.flatMap findAllColumns
      let newProj :=
        pr ++ (dedupByKey projectionAddition).map (fun c => setApiColumn c true)
      ⟨d, f, gb, hv, newProj, newWhere, lim, ctes⟩


/-!
## build.py: `_build_dimensions_on_select`

External metadata entities (spec section 3, read-only collaborators):
`NodeRevision` with its declared columns (each optionally tagged with a
dimension reference and a `dimension_column`) and its physical tables
per database.  Dict keys compare by revision identity, modelled by
`id`.  The recursive `Query.build` call and `amenable_name` are not in
src/ (build.py is their caller), so the recursively built dimension
select is a parameter `buildDim` and `amenableName` is modelled from
the spec as the name-mangling function.
-/

/-- Column metadata on a NodeRevision (`dj.models.column.Column`):
name, optional dimension-node reference (by the id of that dimension's
current revision) and optional dimension join column. -/
structure ColumnMD where
  cname : String
  dimension : Option Nat
  dimensionColumn : Option String
deriving DecidableEq, Repr

/-- A physical table registration of a NodeRevision. -/
structure PhysTable where
  catalog : Option String
  schemaN : Option String
  tname : String
  databaseId : Nat
deriving DecidableEq, Repr

/-- A `NodeRevision` as read by `_build_dimensions_on_select`. -/
structure NodeRev where
  id : Nat
  nodeName : String
  columns : List ColumnMD
  tables : List PhysTable
deriving DecidableEq, Repr

/-- `amenable_name` — Modelled from the spec: the "name-mangled form of
the node's full name" used as subquery alias (the function lives in
dj/construction/utils.py, not under src/): dots are replaced by
SQL-safe underscores. -/
def amenableName (s : String) : String :=
  String.mk (s.toList.map (fun c => if c == '.' then '_' else c))

/-- The error outcomes of one `_build_dimensions_on_select` run:
the `DJException` it raises itself, the `TypeError` from calling
`reduce` on an empty join-condition list or from passing the
keyword `namespace=` to the dataclass-generated `Table.__init__`
(whose parameter is `_namespace`), and the `IndexError` from `[...][0]`
when no physical table matches the target database. -/
inductive BuildErr where
  | dj (msg : String)
  | typeError
  | indexError
deriving DecidableEq, Repr

/-- Is the outcome the `DJException` raised by the join-key check? -/
def isDJErr {α : Type} : Except BuildErr α → Bool
  | .error (.dj _) => true
  | _ => false

/-- The `DJException` message (source spelling kept). -/
def djDimErrMsg (tableNode dimNode : NodeRev) (c : ColumnMD) : String :=
  "Node " ++ tableNode.nodeName ++ " specifiying dimension " ++
    dimNode.nodeName ++ " on column " ++ c.cname ++
    " does not specify a dimension column, but " ++ dimNode.nodeName ++
    " does not have the default key `id`."

/-- The inner loop over `table_node.columns` building `join_dim_cols`:
keep the columns tagged with this dimension, raising `DJException` when
such a column has no `dimension_column` and the dimension declares no
`id` column. -/
def collectJoinDimCols (tableNode dimNode : NodeRev) :
    List ColumnMD → Except BuildErr (List ColumnMD)
  | [] => .ok []
  | c :: cs =>
      if c.dimension == some dimNode.id then
        if c.dimensionColumn == none &&
            !(dimNode.columns.any (fun dc => dc.cname == "id")) then
          .error (.dj (djDimErrMsg tableNode dimNode c))
        else do
          let rest ← collectJoinDimCols tableNode dimNode cs
          .ok (c :: rest)
      else collectJoinDimCols tableNode dimNode cs

/-- The loop over `tables` building `join_info` (every directly-joined
table node gets an entry, referencing the dimension or not). -/
def collectJoinInfo (dimNode : NodeRev) :
    List (NodeRev × List PNode) →
      Except BuildErr (List (NodeRev × List ColumnMD))
  | [] => .ok []
  | (tn, _) :: rest => do
      let cs ← collectJoinDimCols tn dimNode tn.columns
      let r ← collectJoinInfo dimNode rest
      .ok ((tn, cs) :: r)

/-- Resolve the dimension's joined source (`dim_ast`): at positive
depth, the recursively built dimension select wrapped in an
`Alias(amenable_name(dim_node.node.name))`; at depth zero the code
selects the physical table for the target database
(`IndexError` when there is none) and then crashes with `TypeError`,
because `ast.Table(ast.Name(...), namespace=...)` passes a keyword
`namespace` that the dataclass `__init__` (parameter `_namespace`)
does not accept. -/
def resolveDimAst (dimNode : NodeRev) (buildDim : NodeRev → PNode)
    (buildPlanDepth : Nat) (databaseId : Nat) : Except BuildErr PNode :=
  if buildPlanDepth > 0 then
    .ok (.alias (.name (amenableName dimNode.nodeName) "") none (buildDim dimNode))
  else
    match dimNode.tables.filter (fun t => t.databaseId == databaseId) with
    | [] => .error .indexError
    | _ :: _ => .error .typeError

/-- The `join_on` list for one `join_info` entry:
`for table in ast_tables: for col in cols:` the program appends
`ast.BinaryOp(ast.BinaryOpKind.Eq, Column(Name(col.name), _table=table),
Column(Name(col.dimension_column or "id"), _table=dim_ast))` — a
positional call, so under the src dataclass field order
`(left, op, right)` the `Eq` kind lands in the `left` slot and the two
columns in the `op` and `right` slots (see `BuildExpr`); no error is
raised and no well-formed equality is built. -/
def joinOnList (astTables : List PNode) (cols : List ColumnMD)
    (dimAst : PNode) : List BuildExpr :=
  astTables.flatMap
    (fun tbl =>
      cols.map
        (fun c =>
          .misBinaryOp .eq
            (.node (.column (.name c.cname "") none (some tbl) false))
            (.node (.column (.name (c.dimensionColumn.getD "id") "")
              none (some dimAst) false))))

/-- The `ast.Join(ast.JoinKind.LeftOuter, dim_ast, reduce(...))` node
appended to `select.from_.joins`: here the positional arguments DO
match the `Join` dataclass field order `(kind, table, on)`, but the
`on` slot receives the `reduce` result over `join_on`, a `BuildExpr`. -/
structure BuildJoin where
  kind : JoinKind
  tbl : PNode
  onE : BuildExpr

/-- Append one LEFT OUTER JOIN per `join_info` entry; `reduce` over an
empty `join_on` raises `TypeError`. -/
def appendJoins (tables : List (NodeRev × List PNode)) (dimAst : PNode) :
    List (NodeRev × List ColumnMD) → Except BuildErr (List BuildJoin)
  | [] => .ok []
  | (tn, cols) :: rest => do
      let astTables := (tables.lookup tn).getD []
      match joinOnList astTables cols dimAst with
      | [] => .error .typeError
      | j0 :: js => do
          let r ← appendJoins tables dimAst rest
          .ok (⟨.leftOuter, dimAst, reduceAndB j0 js⟩ :: r)

/-- One iteration of the outer loop of `_build_dimensions_on_select`
for a dimension node `dimNode` with its referencing columns `dimCols`:
skip it if the dimension is itself directly joined, otherwise build
`join_info` (raising the `DJException` on a missing join key), resolve
`dim_ast`, call `add_table(dim_ast)` on each referencing column, and
synthesize the joins.  Returns the (attempted) re-bound columns and
the joins appended to `select.from_.joins`. -/
def buildDimOne (tables : List (NodeRev × List PNode))
    (buildDim : NodeRev → PNode) (buildPlanDepth : Nat) (databaseId : Nat)
    (dimNode : NodeRev) (dimCols : List PNode) :
    Except BuildErr (List PNode × List BuildJoin) :=
  if tables.any (fun p => p.1 == dimNode) then .ok (dimCols, [])
  else do
    let joinInfo ← collectJoinInfo dimNode tables
    let dimAst ← resolveDimAst dimNode buildDim buildPlanDepth databaseId
    let newCols := dimCols.map (fun c => addTableNode c dimAst)
    let joins ← appendJoins tables dimAst joinInfo
    .ok (newCols, joins)

/-- `_build_dimensions_on_select` over the `dimension_columns` dict
(insertion-ordered association list), accumulating the updated
dimension columns and the joins appended to the select's FROM. -/
def buildDimensionsOnSelect (tables : List (NodeRev × List PNode))
    (buildDim : NodeRev → PNode) (buildPlanDepth : Nat) (databaseId : Nat) :
    List (NodeRev × List PNode) →
      Except BuildErr (List (List PNode) × List BuildJoin)
  | [] => .ok ([], [])
  | (dimNode, dimCols) :: rest => do
      let (newCols, joins) ←
        buildDimOne tables buildDim buildPlanDepth databaseId dimNode dimCols
      let (restCols, restJoins) ←
        buildDimensionsOnSelect tables buildDim buildPlanDepth databaseId rest
      .ok (newCols :: restCols, joins ++ restJoins)


/-!
## Claim theorems
-/

/-- C4: `diff(a, b)` walks the two trees in lock-step over positionally
matched children (a missing position on either side pairs with an
absent placeholder); at each visited pair, if shallow equality fails
the pair is recorded and its children are not descended into, and if
shallow equality holds its children are recursed pairwise; and
`compare(a, b)` is true exactly when the resulting mismatch list is
empty. -/
theorem c4_diff_lockstep (a b : PNode) :
    (diffPairs a b =
      if shallowEq a b then
        (zipLongest a.children b.children).flatMap
          (fun op =>
            match op with
            | .both c d => diffPairs c d
            | .left c => [(some c, none)]
            | .right d => [(none, some d)])
      else [(some a, some b)]) ∧
    (compareB a b = true ↔ diffPairs a b = []) := by
  constructor
  · rw [diffPairs_def]
    by_cases h : shallowEq a b = true
    · rw [if_pos h, if_pos h]
      apply List.flatMap_congr
      intro op _
      cases op <;> rfl
    · rw [if_neg h, if_neg h]
  · rw [compareB, List.isEmpty_iff]

/-- C3: for any two AST trees `a` and `b`, the results of `a == b` and
of `compare(a, b)` are unchanged by any sequence of `add_parents` and
`add_table` calls performed on either tree: back-reference fields
(leading-underscore fields such as `_parents` and `_table`) never
participate in shallow equality or in diff/compare. -/
theorem c3_compare_backref_independent
    (ops1 ops2 : List RefOp) (a b : PNode) :
    shallowEq (applyRefOps ops1 a) (applyRefOps ops2 b) = shallowEq a b ∧
    compareB (applyRefOps ops1 a) (applyRefOps ops2 b) = compareB a b := by
  constructor
  · rw [← shallowEq_strip (applyRefOps ops1 a), strip_applyRefOps,
      strip_applyRefOps, shallowEq_strip]
  · rw [← compareB_strip (applyRefOps ops1 a), strip_applyRefOps,
      strip_applyRefOps, compareB_strip]

/-- C6: `compile_parents` is idempotent: starting from any parent-set
state, running the insertion pass twice leaves exactly the state after
running it once (each parent is added to a set, never duplicated). -/
theorem c6_compile_parents_idempotent (t : PNode)
    (m : List (List Nat × List Nat)) :
    compileParentsMap t (compileParentsMap t m) = compileParentsMap t m := by
  unfold compileParentsMap
  exact foldl_insEdge_stable _ _
    (fun e he => mem_foldl_insEdge_of_mem_list _ _ e he)

/-- C7: the `Column`/`Wildcard` → `Table` back-reference is set-once
with first-writer-wins semantics: for an unbound column or wildcard
`c`, after `c.add_table(t1)` the binding is `t1`, a subsequent
`c.add_table(t2)` is a no-op leaving the binding `t1`, and `add_table`
never reassigns an already-set binding of any node. -/
theorem c7_add_table_set_once (c t1 t2 : PNode)
    (hvar : c.tag = VTag.column ∨ c.tag = VTag.wildcard)
    (hnone : tableOf c = none) :
    tableOf (addTableNode c t1) = some t1 ∧
    addTableNode (addTableNode c t1) t2 = addTableNode c t1 ∧
    (∀ d t0 t, tableOf d = some t0 → addTableNode d t = d) := by
  have h3 : ∀ d t0 t : PNode, tableOf d = some t0 → addTableNode d t = d := by
    intro d t0 t hd
    cases d <;> simp [tableOf] at hd <;> (subst hd; rfl)
  refine ⟨?_, ?_, h3⟩ <;>
    (cases c <;> simp [PNode.tag] at hvar <;> simp [tableOf] at hnone <;>
      subst hnone <;> rfl)

/-- Witness for C7 at a concrete unbound column and two tables. -/
theorem c7_add_table_set_once_witness :
    tableOf (addTableNode (PNode.column (.name "x" "") none none false)
        (.table (.name "a" "") none [])) =
      some (.table (.name "a" "") none []) ∧
    addTableNode
        (addTableNode (PNode.column (.name "x" "") none none false)
          (.table (.name "a" "") none []))
        (.table (.name "b" "") none []) =
      addTableNode (PNode.column (.name "x" "") none none false)
        (.table (.name "a" "") none []) :=
  ⟨(c7_add_table_set_once (PNode.column (.name "x" "") none none false)
      (.table (.name "a" "") none []) (.table (.name "b" "") none [])
      (Or.inl rfl) rfl).1,
    (c7_add_table_set_once (PNode.column (.name "x" "") none none false)
      (.table (.name "a" "") none []) (.table (.name "b" "") none [])
      (Or.inl rfl) rfl).2.1⟩


/-- C9: constructing a `Number` normalizes its value to an integer
first and falls back to floating-point only if integer parsing fails:
`Number("5")` holds the integer `5`, `Number("5.5")` holds 5.5 as a
float; values already of type int or float are kept unchanged. -/
theorem c9_number_normalization :
    numberPostInit (.pStr "5") = .ok (.pInt 5) ∧
    numberPostInit (.pStr "5.5") = .ok (.pFloat (11 / 2 : Rat)) ∧
    (∀ n : Int, numberPostInit (.pInt n) = .ok (.pInt n)) ∧
    (∀ q : Rat, numberPostInit (.pFloat q) = .ok (.pFloat q)) := by
  refine ⟨rfl, ?_, fun n => rfl, fun q => rfl⟩
  have h : numberPostInit (.pStr "5.5") =
      .ok (.pFloat (((5 : Nat) : Rat) + ((5 : Nat) : Rat) /
        ((10 : Rat) ^ (1 : Nat)))) := rfl
  rw [h]
  norm_num


/-- C2 (exhibit of the hash/equality inconsistency): two Columns whose
nested Names differ are shallow-equal (`__eq__` compares the `name`
field, a nested node, by type only) yet their `__hash__` inputs differ
(`hash((Column, self.name))` includes the Name's text); likewise two
BinaryOps that differ only in operator kind are shallow-equal (an enum
member field is compared by type only) yet hash over different
operator members.  So shallow equality does NOT imply equal hash. -/
theorem c2_hash_eq_inconsistency_exhibit :
    shallowEq (.column (.name "a" "") none none false)
        (.column (.name "b" "") none none false) = true ∧
    pyHashV (.column (.name "a" "") none none false) ≠
      pyHashV (.column (.name "b" "") none none false) ∧
    shallowEq (.binaryOp (.number (.pInt 1)) .and (.number (.pInt 2)))
        (.binaryOp (.number (.pInt 1)) .or (.number (.pInt 2))) = true ∧
    pyHashV (.binaryOp (.number (.pInt 1)) .and (.number (.pInt 2))) ≠
      pyHashV (.binaryOp (.number (.pInt 1)) .or (.number (.pInt 2))) := by
  refine ⟨rfl, ?_, rfl, ?_⟩ <;> decide

/-- C10: `Namespace.to_column` and `Namespace.to_table` raise
`DJParseException` on an empty namespace; on a non-empty one they pop
the last Name (the namespace afterwards holds one fewer name), return a
Column/Table named by that popped Name, and attach the remaining names
as the result's namespace only when at least one name remains. -/
theorem c10_namespace_pop (rest : List PNode) (last : PNode) :
    namespaceToColumn [] = .error (.parseException "Namespace is empty") ∧
    namespaceToTable [] = .error (.parseException "Namespace is empty") ∧
    namespaceToColumn (rest ++ [last]) =
      .ok (.column last (if rest.isEmpty then none else some (.nspace rest))
        none false, rest) ∧
    namespaceToTable (rest ++ [last]) =
      .ok (.table last (if rest.isEmpty then none else some (.nspace rest))
        [], rest) ∧
    (rest ++ [last]).length = rest.length + 1 := by
  have hne : ¬((rest ++ [last]).isEmpty = true) := by simp
  refine ⟨rfl, rfl, ?_, ?_, by simp⟩
  · rw [namespaceToColumn, dif_neg hne]
    simp only [List.dropLast_concat, List.getLast_concat]
    by_cases hr : rest.isEmpty = true <;> simp [hr]
  · rw [namespaceToTable, dif_neg hne]
    simp only [List.dropLast_concat, List.getLast_concat]
    by_cases hr : rest.isEmpty = true <;> simp [hr]


/-!
## Concrete scenario for claim C1 (the dimension-join rebinding bug)

One directly-joined table node `orders` (declaring `user_id` →
dimension `users` via join column `id`), one dimension node `users`
referenced through the placeholder table the parser bound `user_id`
to.  Dimension resolution is run at depth 1 (the subquery branch) and,
for the depth-zero clause, at depth 0.
-/

def usersRev : NodeRev :=
  ⟨1, "users", [⟨"id", none, none⟩], [⟨none, none, "users_tbl", 7⟩]⟩

def ordersRev : NodeRev :=
  ⟨2, "orders", [⟨"user_id", some 1, some "id"⟩], []⟩

/-- The placeholder `users` table the column was resolved against. -/
def placeholderUsers : PNode := .table (.name "users" "") none []

def ordersAstTable : PNode := .table (.name "orders" "") none []

/-- The `user_id` column, already bound (`_table`) to the placeholder
dimension table, exactly as `_get_tables_and_dim_cols` requires
(`isinstance(col.table, ast.Table)`). -/
def userIdCol : PNode :=
  .column (.name "user_id" "") none (some placeholderUsers) false

/-- The recursively built dimension select (contents irrelevant). -/
def builtUsersSelect : PNode :=
  .select false (.fromN (.table (.name "users_src" "") none []) []) []
    none [] none none

/-- The aliased dimension source synthesized at depth 1. -/
def usersDimAst : PNode :=
  .alias (.name "users" "") none builtUsersSelect

/-- C1 (code-bug exhibit): running `_build_dimensions_on_select` on the
scenario appends one LEFT OUTER JOIN, but (i) the referencing column
comes back UNCHANGED — still bound to the placeholder table, not to
the new aliased source — because `Column.add_table` is a
first-writer-wins no-op on a column that is already bound (and every
dimension column is bound, by construction); (ii) the appended join
carries, in its `on` slot, not the claimed equality
`orders.user_id = users.id` but the garbled
`BinaryOp(left=Eq, op=Column(user_id), right=Column(id))` that the
positional `ast.BinaryOp(Eq, ..., ...)` call builds under the src
field order `(left, op, right)`; and (iii) at depth zero the code does
not even reach physical-table substitution: constructing
`ast.Table(ast.Name(...), namespace=...)` raises `TypeError` (the
dataclass `__init__` parameter is `_namespace`). -/
theorem c1_dimension_rebinding_bug :
    buildDimensionsOnSelect [(ordersRev, [ordersAstTable])]
        (fun _ => builtUsersSelect) 1 7 [(usersRev, [userIdCol])] =
      .ok ([[userIdCol]],
        [⟨.leftOuter, usersDimAst,
          .misBinaryOp .eq
            (.node (.column (.name "user_id" "") none (some ordersAstTable) false))
            (.node (.column (.name "id" "") none (some usersDimAst) false))⟩]) ∧
    tableOf userIdCol = some placeholderUsers ∧
    placeholderUsers ≠ usersDimAst ∧
    (BuildExpr.misBinaryOp .eq
        (.node (.column (.name "user_id" "") none (some ordersAstTable) false))
        (.node (.column (.name "id" "") none (some usersDimAst) false)) ≠
      BuildExpr.node
        (.binaryOp (.column (.name "user_id" "") none (some ordersAstTable) false)
          .eq (.column (.name "id" "") none (some usersDimAst) false))) ∧
    buildDimensionsOnSelect [(ordersRev, [ordersAstTable])]
        (fun _ => builtUsersSelect) 0 7 [(usersRev, [userIdCol])] =
      .error .typeError := by
  refine ⟨rfl, rfl, ?_, ?_, rfl⟩
  · intro h
    simp [placeholderUsers, usersDimAst] at h
  · intro h
    exact BuildExpr.noConfusion h


/-- A declared column that triggers the missing-join-key check: tagged
with this dimension, no `dimension_column`, and the dimension has no
declared `id` column. -/
def badDimCol (dimNode : NodeRev) (c : ColumnMD) : Prop :=
  c.dimension = some dimNode.id ∧ c.dimensionColumn = none ∧
    ∀ dc ∈ dimNode.columns, dc.cname ≠ "id"

instance (dimNode : NodeRev) (c : ColumnMD) :
    Decidable (badDimCol dimNode c) := by
  unfold badDimCol
  infer_instance

theorem isDJErr_bind_pure {α β : Type} (x : Except BuildErr α)
    (g : α → β) :
    isDJErr (x >>= fun a => Except.ok (g a)) = isDJErr x := by
  cases x with
  | error e => cases e <;> rfl
  | ok a => rfl

/-- The Bool guard of the `DJException` raise matches `badDimCol`
whenever the column is tagged with this dimension. -/
theorem badDimCol_guard (dimNode : NodeRev) (c : ColumnMD)
    (hdim : (c.dimension == some dimNode.id) = true) :
    ((c.dimensionColumn == none &&
        !dimNode.columns.any (fun dc => dc.cname == "id")) = true) ↔
      badDimCol dimNode c := by
  unfold badDimCol
  simp only [Bool.and_eq_true, beq_iff_eq, Bool.not_eq_eq_eq_not,
    Bool.not_true, List.any_eq_false, beq_eq_false_iff_ne]
  constructor
  · intro ⟨h1, h2⟩
    exact ⟨by simpa using hdim, h1, h2⟩
  · intro ⟨_, h1, h2⟩
    exact ⟨h1, h2⟩

theorem collectJoinDimCols_dj_iff (tn dimNode : NodeRev) :
    ∀ cols : List ColumnMD,
      isDJErr (collectJoinDimCols tn dimNode cols) = true ↔
        ∃ c ∈ cols, badDimCol dimNode c := by
  intro cols
  induction cols with
  | nil => simp [collectJoinDimCols, isDJErr]
  | cons c cs ih =>
      rw [collectJoinDimCols]
      by_cases hdim : (c.dimension == some dimNode.id) = true
      · rw [if_pos hdim]
        by_cases hbad : (c.dimensionColumn == none &&
            !dimNode.columns.any (fun dc => dc.cname == "id")) = true
        · rw [if_pos hbad]
          simp only [isDJErr, true_iff]
          exact ⟨c, List.mem_cons_self _ _, (badDimCol_guard dimNode c hdim).mp hbad⟩
        · rw [if_neg hbad]
          rw [isDJErr_bind_pure, ih]
          have hnotbad : ¬ badDimCol dimNode c :=
            fun hb => hbad ((badDimCol_guard dimNode c hdim).mpr hb)
          constructor
          · intro ⟨c2, hc2, hb⟩
            exact ⟨c2, List.mem_cons_of_mem _ hc2, hb⟩
          · intro ⟨c2, hc2, hb⟩
            rcases List.mem_cons.mp hc2 with hc2 | hc2
            · subst hc2; exact absurd hb hnotbad
            · exact ⟨c2, hc2, hb⟩
      · rw [if_neg hdim]
        rw [ih]
        constructor
        · intro ⟨c2, hc2, hb⟩
          exact ⟨c2, List.mem_cons_of_mem _ hc2, hb⟩
        · intro ⟨c2, hc2, hb⟩
          rcases List.mem_cons.mp hc2 with hc2 | hc2
          · subst hc2
            exact absurd (by simpa using hb.1) (by simpa using hdim)
          · exact ⟨c2, hc2, hb⟩

theorem error_bind {α β : Type} (e : BuildErr) (k : α → Except BuildErr β) :
    (Except.error e >>= k) = Except.error e := rfl

theorem ok_bind {α β : Type} (a : α) (k : α → Except BuildErr β) :
    (Except.ok a >>= k) = k a := rfl

theorem isDJErr_ok {α : Type} (a : α) : isDJErr (Except.ok (ε := BuildErr) a) = false := rfl

/-- Which `BuildErr` payloads are the DJException. -/
def errIsDJ : BuildErr → Bool
  | .dj _ => true
  | _ => false

theorem isDJErr_error {α : Type} (e : BuildErr) :
    isDJErr (Except.error (α := α) e) = errIsDJ e := by
  cases e <;> rfl

theorem collectJoinDimCols_err_only_dj (tn dimNode : NodeRev) :
    ∀ (cols : List ColumnMD) (e : BuildErr),
      collectJoinDimCols tn dimNode cols = .error e → ∃ m, e = .dj m := by
  intro cols
  induction cols with
  | nil => intro e h; exact absurd h (by simp [collectJoinDimCols])
  | cons c cs ih =>
      intro e h
      rw [collectJoinDimCols] at h
      by_cases hdim : (c.dimension == some dimNode.id) = true
      · rw [if_pos hdim] at h
        by_cases hbad : (c.dimensionColumn == none &&
            !dimNode.columns.any (fun dc => dc.cname == "id")) = true
        · rw [if_pos hbad] at h
          exact ⟨_, (Except.error.inj h).symm⟩
        · rw [if_neg hbad] at h
          rcases hX : collectJoinDimCols tn dimNode cs with e2 | r
          · rw [hX, error_bind] at h
            have he : e2 = e := Except.error.inj h
            rcases ih e2 hX with ⟨m, hm⟩
            exact ⟨m, by rw [← he]; exact hm⟩
          · rw [hX, ok_bind] at h
            exact absurd h (by simp)
      · rw [if_neg hdim] at h
        exact ih e h

theorem collectJoinInfo_dj_iff (dimNode : NodeRev) :
    ∀ tables : List (NodeRev × List PNode),
      isDJErr (collectJoinInfo dimNode tables) = true ↔
        ∃ p ∈ tables, ∃ c ∈ p.1.columns, badDimCol dimNode c := by
  intro tables
  induction tables with
  | nil => simp [collectJoinInfo, isDJErr]
  | cons p rest ih =>
      obtain ⟨tn, ts⟩ := p
      rw [collectJoinInfo]
      rcases hX : collectJoinDimCols tn dimNode tn.columns with e | cs
      · have hiff := collectJoinDimCols_dj_iff tn dimNode tn.columns
        rw [hX, isDJErr_error] at hiff
        rw [error_bind, isDJErr_error]
        constructor
        · intro h
          exact ⟨(tn, ts), List.mem_cons_self _ _, hiff.mp h⟩
        · intro _
          rcases collectJoinDimCols_err_only_dj tn dimNode tn.columns e hX with ⟨m, hm⟩
          subst hm
          rfl
      · have hiff := collectJoinDimCols_dj_iff tn dimNode tn.columns
        rw [hX] at hiff
        have hno : ¬ ∃ c ∈ tn.columns, badDimCol dimNode c := by
          intro hc
          exact absurd (hiff.mpr hc) (by simp [isDJErr])
        simp only [ok_bind, isDJErr_bind_pure]
        rw [ih]
        constructor
        · intro ⟨p2, hp2, hc2⟩
          exact ⟨p2, List.mem_cons_of_mem _ hp2, hc2⟩
        · intro ⟨p2, hp2, hc2⟩
          rcases List.mem_cons.mp hp2 with hp2 | hp2
          · subst hp2
            exact absurd hc2 hno
          · exact ⟨p2, hp2, hc2⟩


theorem resolveDimAst_not_dj (dimNode : NodeRev) (buildDim : NodeRev → PNode)
    (depth db : Nat) :
    isDJErr (resolveDimAst dimNode buildDim depth db) = false := by
  unfold resolveDimAst
  split
  · rfl
  · split <;> rfl

theorem appendJoins_not_dj (tables : List (NodeRev × List PNode))
    (dimAst : PNode) :
    ∀ ji, isDJErr (appendJoins tables dimAst ji) = false := by
  intro ji
  induction ji with
  | nil => rfl
  | cons p rest ih =>
      obtain ⟨tn, cols⟩ := p
      rw [appendJoins]
      rcases hjo : joinOnList ((tables.lookup tn).getD []) cols dimAst with _ | ⟨j0, js⟩
      · rfl
      · rcases hr : appendJoins tables dimAst rest with e | r
        · simp only [error_bind, isDJErr_error]
          rw [hr, isDJErr_error] at ih
          exact ih
        · simp only [ok_bind]
          rfl

/-- The `DJException` outcome of one dimension resolution step. -/
theorem buildDimOne_dj_iff (tables : List (NodeRev × List PNode))
    (buildDim : NodeRev → PNode) (depth db : Nat) (dimNode : NodeRev)
    (dimCols : List PNode) :
    isDJErr (buildDimOne tables buildDim depth db dimNode dimCols) = true ↔
      ((∀ p ∈ tables, p.1 ≠ dimNode) ∧
        ∃ p ∈ tables, ∃ c ∈ p.1.columns, badDimCol dimNode c) := by
  rw [buildDimOne]
  by_cases hany : (tables.any fun p => p.1 == dimNode) = true
  · rw [if_pos hany]
    rw [isDJErr_ok]
    constructor
    · intro h; exact absurd h (by simp)
    · intro ⟨hall, _⟩
      rcases List.any_eq_true.mp hany with ⟨p, hp, hpe⟩
      exact absurd (by simpa using hpe) (hall p hp)
  · rw [if_neg hany]
    have hall : ∀ p ∈ tables, p.1 ≠ dimNode := by
      intro p hp he
      exact hany (List.any_eq_true.mpr ⟨p, hp, by simpa using he⟩)
    rcases hji : collectJoinInfo dimNode tables with e | ji
    · have hiff := collectJoinInfo_dj_iff dimNode tables
      rw [hji, isDJErr_error] at hiff
      rw [error_bind, isDJErr_error]
      constructor
      · intro h
        exact ⟨hall, hiff.mp h⟩
      · intro ⟨_, hx⟩
        exact hiff.mpr hx
    · have hno : ¬ ∃ p ∈ tables, ∃ c ∈ p.1.columns, badDimCol dimNode c := by
        intro hc
        have := (collectJoinInfo_dj_iff dimNode tables).mpr hc
        rw [hji] at this
        exact absurd this (by simp [isDJErr])
      rw [ok_bind]
      rcases hra : resolveDimAst dimNode buildDim depth db with e2 | dimAst
      · have := resolveDimAst_not_dj dimNode buildDim depth db
        rw [hra, isDJErr_error] at this
        rw [error_bind, isDJErr_error, this]
        constructor
        · intro h; exact absurd h (by simp)
        · intro ⟨_, hx⟩; exact absurd hx hno
      · rw [ok_bind]
        rcases haj : appendJoins tables dimAst ji with e3 | joins
        · have := appendJoins_not_dj tables dimAst ji
          rw [haj, isDJErr_error] at this
          rw [error_bind, isDJErr_error, this]
          constructor
          · intro h; exact absurd h (by simp)
          · intro ⟨_, hx⟩; exact absurd hx hno
        · rw [ok_bind, isDJErr_ok]
          constructor
          · intro h; exact absurd h (by simp)
          · intro ⟨_, hx⟩; exact absurd hx hno


/-- C8: during the resolution of a dimension node, the fatal
`DJException` (naming the offending node and column, cf. `djDimErrMsg`)
is raised if and only if the dimension is not itself among the directly
joined tables and some directly-joined table's NodeRevision declares a
column whose dimension is this dimension node, with no
`dimension_column`, while the dimension declares no `id` column; when
every such column either specifies a join column or the dimension has
an `id` column, no `DJException` occurs (later failures, if any, are of
other kinds). -/
theorem c8_dimension_join_key_error (tables : List (NodeRev × List PNode))
    (buildDim : NodeRev → PNode) (depth db : Nat) (dimNode : NodeRev)
    (dimCols : List PNode) :
    isDJErr (buildDimensionsOnSelect tables buildDim depth db
        [(dimNode, dimCols)]) = true ↔
      ((∀ p ∈ tables, p.1 ≠ dimNode) ∧
        ∃ p ∈ tables, ∃ c ∈ p.1.columns, badDimCol dimNode c) := by
  have hone := buildDimOne_dj_iff tables buildDim depth db dimNode dimCols
  rw [buildDimensionsOnSelect]
  rcases hb : buildDimOne tables buildDim depth db dimNode dimCols with e | pr
  · rw [hb, isDJErr_error] at hone
    simp only [error_bind, isDJErr_error]
    exact hone
  · obtain ⟨nc, j⟩ := pr
    rw [hb, isDJErr_ok] at hone
    simp only [ok_bind]
    rw [buildDimensionsOnSelect]
    simp only [ok_bind, isDJErr_ok]
    exact hone


/-!
## Concrete scenario for claim C5 (the WHERE misbinding)

A query `SELECT x FROM sales WHERE TRUE` and one filter whose parsed
fragment is a well-formed equality (fragments come from the external
parser, which builds proper nodes; only build.py misbinds).
-/

/-- The parsed WHERE fragment of the caller-supplied filter string. -/
def euFilterFragment : PNode :=
  .binaryOp (.column (.name "region" "") none none false) .eq
    (.string (.pStr "EU"))

/-- The pre-existing WHERE condition of the query. -/
def priorWhere : PNode := .boolean (.pBool true)

/-- C5 (code-bug exhibit): splicing one filter into a query with an
existing WHERE does append the referenced column to the projection,
deduplicated and flagged as API-added, but it does NOT set the WHERE
to the left-associated AND of the existing condition and the fragment:
the reduce lambda calls `ast.BinaryOp(ast.BinaryOpKind.And, left,
right)` positionally, and under the src dataclass field order
`(left, op, right)` this stores the `And` kind in the `left` slot and
the two operands in the `op` and `right` slots — a garbled object,
distinct from the well-formed `BinaryOp(prior, And, fragment)` the
claim describes. -/
theorem c5_filter_where_garbled :
    addFiltersToQueryAst (fun _ => euFilterFragment) false
        (.fromN (.table (.name "sales" "") none []) []) [] none
        [.column (.name "x" "") none none false] (some priorWhere) none []
        ["region = EU"] =
      ⟨false, .fromN (.table (.name "sales" "") none []) [], [], none,
        [.column (.name "x" "") none none false,
          .column (.name "region" "") none none true],
        some (.misBinaryOp .and (.node priorWhere) (.node euFilterFragment)),
        none, []⟩ ∧
    (BuildExpr.misBinaryOp .and (.node priorWhere) (.node euFilterFragment) ≠
      BuildExpr.node (.binaryOp priorWhere .and euFilterFragment)) := by
  refine ⟨rfl, ?_⟩
  intro h
  exact BuildExpr.noConfusion h
